import Mathlib

/-!
Verification of the book-ai core: the bounded-concurrency summarization
pipeline, the moderation aggregator, the response repair parser and the
refinement history engine, shallowly embedded from the TypeScript source.
-/

set_option maxRecDepth 4000

/-! ## JSON values (model of the JavaScript values produced by JSON.parse) -/

/-- A JSON value as produced by the JavaScript runtime's JSON.parse.
Numbers keep their source lexeme (the engine never does arithmetic on them). -/
inductive Json where
  | jnull : Json
  | jbool (b : Bool) : Json
  | jnum (lexeme : String) : Json
  | jstr (s : String) : Json
  | jarr (items : List Json) : Json
  | jobj (fields : List (String × Json)) : Json

/-- The opening-brace character, `Char.ofNat 123`. -/
def lbrace : Char := Char.ofNat 123

/-- The closing-brace character, `Char.ofNat 125`. -/
def rbrace : Char := Char.ofNat 125

/-- Drop JSON whitespace from the front, as JSON.parse does between tokens. -/
def skipWs : List Char → List Char
  | [] => []
  | c :: cs => if c = ' ' || c = '\n' || c = '\t' || c = '\r' then skipWs cs else c :: cs

/-- Parse the body of a JSON string literal (the opening quote already
consumed), handling the single-character escape sequences. Returns the
decoded string and the remaining characters after the closing quote. -/
def parseStringBody : Nat → List Char → Option (String × List Char)
  | 0, _ => none
  | _, [] => none
  | fuel+1, c :: cs =>
    if c = '"' then some ("", cs)
    else if c = '\\' then
      match cs with
      | [] => none
      | e :: cs' =>
        let esc : Option Char :=
          if e = '"' then some '"'
          else if e = '\\' then some '\\'
          else if e = '/' then some '/'
          else if e = 'n' then some '\n'
          else if e = 't' then some '\t'
          else if e = 'r' then some '\r'
          else if e = 'b' then some (Char.ofNat 8)
          else if e = 'f' then some (Char.ofNat 12)
          else none
        match esc with
        | none => none
        | some ch =>
          match parseStringBody fuel cs' with
          | some (s, rest) => some (String.singleton ch ++ s, rest)
          | none => none
    else if c.toNat < 32 then none
    else
      match parseStringBody fuel cs with
      | some (s, rest) => some (String.singleton c ++ s, rest)
      | none => none

/-- Lex the integer part of a JSON number: a single 0, or a nonzero digit
followed by digits. -/
def lexInt : List Char → Option (List Char × List Char)
  | [] => none
  | c :: rest =>
    if c = '0' then some (['0'], rest)
    else if c.isDigit then
      some (c :: rest.takeWhile Char.isDigit, rest.dropWhile Char.isDigit)
    else none

/-- Lex one or more digits. -/
def lexDigits (cs : List Char) : Option (List Char × List Char) :=
  let ds := cs.takeWhile Char.isDigit
  if ds.isEmpty then none else some (ds, cs.dropWhile Char.isDigit)

/-- Lex a JSON number (sign, integer part, optional fraction and exponent),
returning its characters and the rest. A malformed fraction or exponent is
left unconsumed, which makes the enclosing parse fail exactly where
JSON.parse would reject the input. -/
def lexNumber (cs : List Char) : Option (List Char × List Char) :=
  let signed : List Char × List Char :=
    match cs with
    | '-' :: rest => (['-'], rest)
    | _ => ([], cs)
  match lexInt signed.2 with
  | none => none
  | some (ip, cs2) =>
    let frac : List Char × List Char :=
      match cs2 with
      | '.' :: rest =>
        match lexDigits rest with
        | some (ds, r) => ('.' :: ds, r)
        | none => ([], cs2)
      | _ => ([], cs2)
    let expo : List Char × List Char :=
      match frac.2 with
      | e :: rest =>
        if e = 'e' || e = 'E' then
          match rest with
          | s :: rest' =>
            if s = '+' || s = '-' then
              match lexDigits rest' with
              | some (ds, r) => (e :: s :: ds, r)
              | none => ([], frac.2)
            else
              match lexDigits rest with
              | some (ds, r) => (e :: ds, r)
              | none => ([], frac.2)
          | [] => ([], frac.2)
        else ([], frac.2)
      | [] => ([], frac.2)
    some (signed.1 ++ ip ++ frac.1 ++ expo.1, expo.2)

/-- Which grammar production a parser step is working on. -/
inductive PMode where
  | value : PMode
  | items : PMode
  | members : PMode

/-- Result of a parser step: a value, the tail of an array, or the tail of
an object. -/
inductive PRes where
  | val (v : Json) (rest : List Char) : PRes
  | arrItems (vs : List Json) (rest : List Char) : PRes
  | objMembers (fs : List (String × Json)) (rest : List Char) : PRes

/-- One fuel-indexed step of the recursive-descent JSON parser modelling
JSON.parse. `PMode.items` parses array elements up to the closing bracket,
`PMode.members` parses object members up to the closing brace. -/
def parseStep : Nat → PMode → List Char → Option PRes
  | 0, _, _ => none
  | fuel+1, PMode.value, cs =>
    match skipWs cs with
    | [] => none
    | c :: rest =>
      if c = '"' then
        match parseStringBody (rest.length + 1) rest with
        | some (s, r) => some (PRes.val (Json.jstr s) r)
        | none => none
      else if c = '[' then
        match skipWs rest with
        | ']' :: r => some (PRes.val (Json.jarr []) r)
        | cs' =>
          match parseStep fuel PMode.items cs' with
          | some (PRes.arrItems vs r) => some (PRes.val (Json.jarr vs) r)
          | _ => none
      else if c = lbrace then
        match skipWs rest with
        | [] => none
        | c' :: r =>
          if c' = rbrace then some (PRes.val (Json.jobj []) r)
          else
            match parseStep fuel PMode.members (c' :: r) with
            | some (PRes.objMembers fs r') => some (PRes.val (Json.jobj fs) r')
            | _ => none
      else if c = 't' then
        if ['r', 'u', 'e'].isPrefixOf rest then some (PRes.val (Json.jbool true) (rest.drop 3))
        else none
      else if c = 'f' then
        if ['a', 'l', 's', 'e'].isPrefixOf rest then some (PRes.val (Json.jbool false) (rest.drop 4))
        else none
      else if c = 'n' then
        if ['u', 'l', 'l'].isPrefixOf rest then some (PRes.val Json.jnull (rest.drop 3))
        else none
      else
        match lexNumber (c :: rest) with
        | some (ds, r) => some (PRes.val (Json.jnum (String.mk ds)) r)
        | none => none
  | fuel+1, PMode.items, cs =>
    match parseStep fuel PMode.value cs with
    | some (PRes.val v rest) =>
      (match skipWs rest with
       | ',' :: r =>
         match parseStep fuel PMode.items r with
         | some (PRes.arrItems vs r') => some (PRes.arrItems (v :: vs) r')
         | _ => none
       | ']' :: r => some (PRes.arrItems [v] r)
       | _ => none)
    | _ => none
  | fuel+1, PMode.members, cs =>
    match skipWs cs with
    | '"' :: rest =>
      (match parseStringBody (rest.length + 1) rest with
       | some (k, r1) =>
         (match skipWs r1 with
          | ':' :: r2 =>
            (match parseStep fuel PMode.value r2 with
             | some (PRes.val v r3) =>
               (match skipWs r3 with
                | ',' :: r4 =>
                  (match parseStep fuel PMode.members r4 with
                   | some (PRes.objMembers fs r5) => some (PRes.objMembers ((k, v) :: fs) r5)
                   | _ => none)
                | c :: r4 =>
                  if c = rbrace then some (PRes.objMembers [(k, v)] r4) else none
                | [] => none)
             | _ => none)
          | _ => none)
       | none => none)
    | _ => none

/-- Model of JavaScript's JSON.parse on a whole string: parse one value and
require only whitespace to remain. Returns none where JSON.parse throws. -/
def jsonParseStr (s : String) : Option Json :=
  let cs := s.toList
  match parseStep (4 * cs.length + 8) PMode.value cs with
  | some (PRes.val v rest) => if skipWs rest = [] then some v else none
  | _ => none

/-! ## SummaryChat.prepareResponseForParsing and SummaryChat.repairResponse -/

/-- Fuel-indexed scanner modelling the global regex replace of markdown
code-fence delimiters: at each position the regex alternatives are tried in
order (the literal with a trailing newline first, then without; then a
leading newline before the closing fence, then without). -/
def stripFencesAux : Nat → List Char → List Char
  | 0, cs => cs
  | _, [] => []
  | fuel+1, c :: rest =>
    let cs := c :: rest
    if ("```json\n".toList).isPrefixOf cs then stripFencesAux fuel (cs.drop 8)
    else if ("```json".toList).isPrefixOf cs then stripFencesAux fuel (cs.drop 7)
    else if ("\n```".toList).isPrefixOf cs then stripFencesAux fuel (cs.drop 4)
    else if ("```".toList).isPrefixOf cs then stripFencesAux fuel (cs.drop 3)
    else c :: stripFencesAux fuel rest

/-- `rawResponse.replace(markdown fence regex, empty string)`. -/
def stripFences (s : String) : String :=
  String.mk (stripFencesAux s.length s.toList)

/-- `cleaned.replace(quote regex, backslash quote)`: escape every double
quote character. -/
def escapeQuotes (s : String) : String :=
  String.mk (s.toList.foldr (fun c acc => if c = '"' then '\\' :: '"' :: acc else c :: acc) [])

/-- Whitespace as removed by the trim call on the cleaned response. -/
def isTrimWs (c : Char) : Bool :=
  c = ' ' || c = '\n' || c = '\t' || c = '\r'

/-- Model of String.prototype.trim: drop whitespace from both ends. -/
def jsTrim (s : String) : String :=
  String.mk (((s.toList.dropWhile isTrimWs).reverse.dropWhile isTrimWs).reverse)

/-- Model of String.prototype.startsWith. -/
def strStarts (s pre : String) : Bool :=
  pre.toList.isPrefixOf s.toList

/-- Model of String.prototype.endsWith. -/
def strEnds (s suf : String) : Bool :=
  suf.toList.reverse.isPrefixOf s.toList.reverse

/-- SummaryChat.prepareResponseForParsing: if the raw response already
parses as JSON it is returned unchanged; otherwise markdown fences are
stripped, the text is trimmed, and it is wrapped into an object keyed by
the target field according to its leading and trailing characters. -/
def prepareResponseForParsing (rawResponse : String) (fieldName : String) : String :=
  match jsonParseStr rawResponse with
  | some _ => rawResponse
  | none =>
    let cleaned := jsTrim (stripFences rawResponse)
    if strStarts cleaned "\"" && strEnds cleaned "\"" then
      "\x7b\"" ++ fieldName ++ "\":" ++ cleaned ++ "\x7d"
    else if !strStarts cleaned "\x7b" && !strStarts cleaned "[" then
      "\x7b\"" ++ fieldName ++ "\":\"" ++ escapeQuotes cleaned ++ "\"\x7d"
    else if strStarts cleaned "[" && strEnds cleaned "]" then
      "\x7b\"" ++ fieldName ++ "\":" ++ cleaned ++ "\x7d"
    else
      cleaned

/-- Property lookup on a parsed JSON object: the last binding of a
duplicated key wins, as in a JavaScript object built by JSON.parse. -/
def objGet (fields : List (String × Json)) (k : String) : Option Json :=
  (fields.filter (fun p => p.1 = k)).getLast?.map Prod.snd

/-- Object.keys of a parsed JSON object: distinct keys in first-occurrence
order. -/
def objKeys (fields : List (String × Json)) : List String :=
  (fields.map Prod.fst).dedup

/-- Whether a number lexeme denotes zero (every mantissa character is a
sign, a decimal point or the digit zero). -/
def isZeroLexeme (lex : String) : Bool :=
  (lex.toList.takeWhile (fun c => !(c = 'e' || c = 'E'))).all
    (fun c => c = '-' || c = '.' || c = '0')

/-- JavaScript truthiness of a JSON value: null, false, zero and the empty
string are falsy; every array and object is truthy. -/
def Json.truthy : Json → Bool
  | Json.jnull => false
  | Json.jbool b => b
  | Json.jnum lex => !isZeroLexeme lex
  | Json.jstr s => !s.toList.isEmpty
  | Json.jarr _ => true
  | Json.jobj _ => true

/-- SummaryChat.repairResponse: strings and arrays are returned as is; an
object whose target-field value is truthy is unwrapped one level (and a
second level when that value is again an object with a truthy target-field
value, where an array or missing nested property reads as undefined and so
falsy); otherwise an object with exactly one distinct key yields that key's
value; everything else is returned unchanged. A null response makes the
property access throw, which the surrounding catch turns into returning
the original value. -/
def repairResponse (response : Json) (fieldName : String) : Json :=
  match response with
  | Json.jstr _ => response
  | Json.jarr _ => response
  | Json.jobj fields =>
    (match objGet fields fieldName with
     | some v =>
       if v.truthy then
         match v with
         | Json.jobj f2 =>
           (match objGet f2 fieldName with
            | some v2 => if v2.truthy then v2 else v
            | none => v)
         | _ => v
       else
         match objKeys fields with
         | [k] => (objGet fields k).getD response
         | _ => response
     | none =>
       match objKeys fields with
       | [k] => (objGet fields k).getD response
       | _ => response)
  | _ => response

/-! ## The refinement history engine (SummaryChat) -/

/-- The keys of ComprehensiveSummary (`keyof ComprehensiveSummary` in the
source). The runtime stores arbitrary parsed values in these fields, so
each field holds a Json value in the model. -/
inductive SField where
  | summary : SField
  | writingStyle : SField
  | quality : SField
  | keywords : SField
  | genres : SField
  | marketingCopy : SField
  | comparableAuthors : SField
  | flagged : SField
  | moderationCategories : SField
deriving DecidableEq

/-- The name string of a ComprehensiveSummary field, as spliced into
prompts and prepared responses. -/
def SField.fieldName : SField → String
  | SField.summary => "summary"
  | SField.writingStyle => "writingStyle"
  | SField.quality => "quality"
  | SField.keywords => "keywords"
  | SField.genres => "genres"
  | SField.marketingCopy => "marketingCopy"
  | SField.comparableAuthors => "comparableAuthors"
  | SField.flagged => "flagged"
  | SField.moderationCategories => "moderationCategories"

/-- The composite analysis document owned by the engine. TypeScript types
each field, but the engine reads and writes them through dynamic property
access, so the model gives every field the runtime value type Json. -/
structure ComprehensiveSummary where
  summary : Json
  writingStyle : Json
  quality : Json
  keywords : Json
  genres : Json
  marketingCopy : Json
  comparableAuthors : Json
  flagged : Json
  moderationCategories : Json

/-- Dynamic property read `doc[field]`. -/
def getF (d : ComprehensiveSummary) : SField → Json
  | SField.summary => d.summary
  | SField.writingStyle => d.writingStyle
  | SField.quality => d.quality
  | SField.keywords => d.keywords
  | SField.genres => d.genres
  | SField.marketingCopy => d.marketingCopy
  | SField.comparableAuthors => d.comparableAuthors
  | SField.flagged => d.flagged
  | SField.moderationCategories => d.moderationCategories

/-- Spread-and-override write `(spread doc, field: v)`. -/
def setF (d : ComprehensiveSummary) : SField → Json → ComprehensiveSummary
  | SField.summary, v => { d with summary := v }
  | SField.writingStyle, v => { d with writingStyle := v }
  | SField.quality, v => { d with quality := v }
  | SField.keywords, v => { d with keywords := v }
  | SField.genres, v => { d with genres := v }
  | SField.marketingCopy, v => { d with marketingCopy := v }
  | SField.comparableAuthors, v => { d with comparableAuthors := v }
  | SField.flagged, v => { d with flagged := v }
  | SField.moderationCategories, v => { d with moderationCategories := v }

/-- One atomic edit record (ChatHistoryEntry). The source names the edited
field `section`, a Lean keyword, so the model calls it `sectionKey`. -/
structure ChatHistoryEntry where
  timestamp : String
  sectionKey : SField
  instruction : String
  previousContent : Json
  updatedContent : Json

/-- The mutable state owned by a SummaryChat instance. -/
structure SummaryChatState where
  summary : ComprehensiveSummary
  chatHistory : List ChatHistoryEntry
  initialSummary : ComprehensiveSummary

/-- The engine's fixed history version tag. -/
def HISTORY_VERSION : String := "1.0"

/-- A serialized history snapshot (ExportedHistory). -/
structure ExportedHistory where
  version : String
  timestamp : String
  initialSummary : ComprehensiveSummary
  history : List ChatHistoryEntry
  currentSummary : ComprehensiveSummary

/-- A refinement request. -/
structure ChatRequest where
  sectionKey : SField
  instruction : String

/-- The observable outcome of the generation call inside refineSection:
a text block, a non-text block, or a thrown transport error. -/
inductive GenOutcome where
  | text (raw : String) : GenOutcome
  | nonText : GenOutcome
  | thrown (msg : String) : GenOutcome

/-- Replay a list of log entries onto a document, writing each entry's
updatedContent into its field in log order. -/
def applyEntries (init : ComprehensiveSummary) (es : List ChatHistoryEntry) : ComprehensiveSummary :=
  es.foldl (fun acc e => setF acc e.sectionKey e.updatedContent) init

/-- SummaryChat.refineSection. The generation call is modelled by the
`gen` outcome and the fresh timestamp by `now`. The pair returned is the
engine state after the call together with the surfaced result; the source
throws before any mutation, so on every error path the state is returned
unchanged. -/
def refineSection (st : SummaryChatState) (req : ChatRequest) (gen : GenOutcome)
    (now : String) : SummaryChatState × Except String ComprehensiveSummary :=
  match gen with
  | GenOutcome.thrown msg =>
    (st, Except.error ("Failed to refine summary: " ++ msg))
  | GenOutcome.nonText =>
    (st, Except.error ("Failed to refine summary: Unexpected response type from Anthropic API"))
  | GenOutcome.text raw =>
    let currentContent := getF st.summary req.sectionKey
    let prepared := prepareResponseForParsing raw req.sectionKey.fieldName
    match jsonParseStr prepared with
    | none =>
      (st, Except.error "Failed to refine summary: Failed to parse response: SyntaxError")
    | some parsed =>
      let updatedContent := repairResponse parsed req.sectionKey.fieldName
      let updatedSummary := setF st.summary req.sectionKey updatedContent
      let entry : ChatHistoryEntry :=
        { timestamp := now
          sectionKey := req.sectionKey
          instruction := req.instruction
          previousContent := currentContent
          updatedContent := updatedContent }
      ({ st with summary := updatedSummary, chatHistory := st.chatHistory ++ [entry] },
       Except.ok updatedSummary)

/-- SummaryChat.exportHistory. -/
def exportHistory (st : SummaryChatState) (now : String) : ExportedHistory :=
  { version := HISTORY_VERSION
    timestamp := now
    initialSummary := st.initialSummary
    history := st.chatHistory
    currentSummary := st.summary }

/-- SummaryChat.importHistory. The source first rejects a falsy or
mismatching version tag; the three required fields are always present on a
typed snapshot, so the second guard cannot fire in the model. -/
def importHistory (st : SummaryChatState) (exported : ExportedHistory) :
    Except String SummaryChatState :=
  if exported.version = "" || exported.version ≠ HISTORY_VERSION then
    Except.error "Incompatible history version"
  else
    Except.ok { st with
      initialSummary := exported.initialSummary
      chatHistory := exported.history
      summary := exported.currentSummary }

/-- SummaryChat.revertToTimestamp: find the first entry with the given
timestamp, truncate the log after it, and rebuild the document by
replaying the kept entries onto the initial summary. -/
def revertToTimestamp (st : SummaryChatState) (timestamp : String) :
    Except String (SummaryChatState × ComprehensiveSummary) :=
  match st.chatHistory.findIdx? (fun e => e.timestamp = timestamp) with
  | none => Except.error "Timestamp not found in history"
  | some entryIndex =>
    let kept := st.chatHistory.take (entryIndex + 1)
    let rebuilt := applyEntries st.initialSummary kept
    Except.ok ({ st with chatHistory := kept, summary := rebuilt }, rebuilt)

/-- SummaryChat.revertLastChange: write the last entry's previousContent
back into its field and pop the entry; no replay is performed. -/
def revertLastChange (st : SummaryChatState) :
    Except String (SummaryChatState × ComprehensiveSummary) :=
  match st.chatHistory.getLast? with
  | none => Except.error "No changes to revert"
  | some lastEntry =>
    let newSummary := setF st.summary lastEntry.sectionKey lastEntry.previousContent
    Except.ok ({ st with summary := newSummary, chatHistory := st.chatHistory.dropLast },
               newSummary)

/-- SummaryChat.reset. -/
def resetChat (st : SummaryChatState) : SummaryChatState × ComprehensiveSummary :=
  ({ st with summary := st.initialSummary, chatHistory := [] }, st.initialSummary)

/-! ## Moderation data model and the moderation aggregator -/

/-- The fixed set of 13 moderation categories. -/
inductive ModCategory where
  | sexual : ModCategory
  | sexualMinors : ModCategory
  | harassment : ModCategory
  | harassmentThreatening : ModCategory
  | hate : ModCategory
  | hateThreatening : ModCategory
  | illicit : ModCategory
  | illicitViolent : ModCategory
  | selfHarm : ModCategory
  | selfHarmIntent : ModCategory
  | selfHarmInstructions : ModCategory
  | violence : ModCategory
  | violenceGraphic : ModCategory
deriving DecidableEq

instance : Fintype ModCategory :=
  ⟨⟨[ModCategory.sexual, ModCategory.sexualMinors, ModCategory.harassment,
     ModCategory.harassmentThreatening, ModCategory.hate, ModCategory.hateThreatening,
     ModCategory.illicit, ModCategory.illicitViolent, ModCategory.selfHarm,
     ModCategory.selfHarmIntent, ModCategory.selfHarmInstructions, ModCategory.violence,
     ModCategory.violenceGraphic], by decide⟩,
   fun x => by cases x <;> decide⟩

/-- The per-category boolean verdicts (interface ModerationCategories). -/
structure ModerationCategories where
  sexual : Bool
  sexualMinors : Bool
  harassment : Bool
  harassmentThreatening : Bool
  hate : Bool
  hateThreatening : Bool
  illicit : Bool
  illicitViolent : Bool
  selfHarm : Bool
  selfHarmIntent : Bool
  selfHarmInstructions : Bool
  violence : Bool
  violenceGraphic : Bool
deriving DecidableEq

/-- Read one category's boolean. -/
def ModerationCategories.get (m : ModerationCategories) : ModCategory → Bool
  | ModCategory.sexual => m.sexual
  | ModCategory.sexualMinors => m.sexualMinors
  | ModCategory.harassment => m.harassment
  | ModCategory.harassmentThreatening => m.harassmentThreatening
  | ModCategory.hate => m.hate
  | ModCategory.hateThreatening => m.hateThreatening
  | ModCategory.illicit => m.illicit
  | ModCategory.illicitViolent => m.illicitViolent
  | ModCategory.selfHarm => m.selfHarm
  | ModCategory.selfHarmIntent => m.selfHarmIntent
  | ModCategory.selfHarmInstructions => m.selfHarmInstructions
  | ModCategory.violence => m.violence
  | ModCategory.violenceGraphic => m.violenceGraphic

/-- The all-false initial accumulator of the aggregation loop. -/
def ModerationCategories.allFalse : ModerationCategories :=
  ⟨false, false, false, false, false, false, false, false, false, false, false, false, false⟩

/-- One pass of the aggregation loop body over the entries of a section's
categories object: every category key is OR-combined into the accumulator. -/
def ModerationCategories.orWith (a b : ModerationCategories) : ModerationCategories where
  sexual := a.sexual || b.sexual
  sexualMinors := a.sexualMinors || b.sexualMinors
  harassment := a.harassment || b.harassment
  harassmentThreatening := a.harassmentThreatening || b.harassmentThreatening
  hate := a.hate || b.hate
  hateThreatening := a.hateThreatening || b.hateThreatening
  illicit := a.illicit || b.illicit
  illicitViolent := a.illicitViolent || b.illicitViolent
  selfHarm := a.selfHarm || b.selfHarm
  selfHarmIntent := a.selfHarmIntent || b.selfHarmIntent
  selfHarmInstructions := a.selfHarmInstructions || b.selfHarmInstructions
  violence := a.violence || b.violence
  violenceGraphic := a.violenceGraphic || b.violenceGraphic

/-- The per-category scores returned by the moderation endpoint. The
source never reads them after construction; JavaScript numbers are
modelled as rationals. -/
structure ModerationCategoryScores where
  sexual : Rat
  sexualMinors : Rat
  harassment : Rat
  harassmentThreatening : Rat
  hate : Rat
  hateThreatening : Rat
  illicit : Rat
  illicitViolent : Rat
  selfHarm : Rat
  selfHarmIntent : Rat
  selfHarmInstructions : Rat
  violence : Rat
  violenceGraphic : Rat
deriving DecidableEq

/-- A per-section moderation result (interface ModerationResult). -/
structure ModerationResult where
  flagged : Bool
  categories : ModerationCategories
  categoryScores : ModerationCategoryScores
deriving DecidableEq

/-- A per-section analysis (interface SectionSummary, in its final shape
with qualityIssues and an optional moderation result). -/
structure SectionSummary where
  title : String
  summary : String
  writingStyle : String
  tonality : String
  keyEvents : List String
  qualityIssues : List String
  moderation : Option ModerationResult
deriving DecidableEq

/-- The ordered book-level result (interface BookSummary). -/
structure BookSummary where
  sections : List SectionSummary
deriving DecidableEq

/-- The book-level moderation verdict computed by the aggregator. -/
structure AggregatedModeration where
  flagged : Bool
  moderationCategories : ModerationCategories
deriving DecidableEq

/-- The body of the aggregation loop: OR in the flag and every category of
a section that has a moderation result; a section without one is skipped. -/
def aggStep (acc : AggregatedModeration) (s : SectionSummary) : AggregatedModeration :=
  match s.moderation with
  | some m =>
    { flagged := acc.flagged || m.flagged
      moderationCategories := acc.moderationCategories.orWith m.categories }
  | none => acc

/-- SummariesAnalyzer.computeAggregatedModeration: starting from an
all-false accumulator, fold the aggregation loop body over the sections in
order. -/
def computeAggregatedModeration (summaries : BookSummary) : AggregatedModeration :=
  summaries.sections.foldl aggStep
    { flagged := false, moderationCategories := ModerationCategories.allFalse }

/-! ## The section summarization pipeline (BookSummarizer) -/

/-- One titled input unit (interface BookSection). -/
structure BookSection where
  title : String
  content : String
deriving DecidableEq

/-- The ordered input document (interface Book). -/
structure Book where
  sections : List BookSection
deriving DecidableEq

/-- The outcome of one translator.translate call: the typechat success
result, the typechat explicit failure result, or a thrown error. -/
inductive TranslateResult where
  | success (data : SectionSummary) : TranslateResult
  | failure (message : String) : TranslateResult
  | thrown (message : String) : TranslateResult

/-- Array.prototype.map with the element index, as used to build the
per-section promises. -/
def mapWithIndex (f : Nat → α → β) : Nat → List α → List β
  | _, [] => []
  | i, a :: as => f i a :: mapWithIndex f (i + 1) as

/-- The body of one per-section task: call the translator, throw on an
explicit failure result (with the section index in the message), and
otherwise spread the returned data with the title overwritten by the
source section's title. -/
def runSection (translate : Nat → BookSection → TranslateResult) (i : Nat)
    (s : BookSection) : Except String SectionSummary :=
  match translate i s with
  | TranslateResult.success data => Except.ok { data with title := s.title }
  | TranslateResult.failure msg =>
    Except.error ("Failed to summarize section " ++ toString i ++ ": " ++ msg)
  | TranslateResult.thrown msg => Except.error msg

/-- The rejection reason of the promise at an index, if it rejected. -/
def rejectionAt (results : List (Except String α)) (i : Nat) : Option String :=
  match results[i]? with
  | some (Except.error e) => some e
  | _ => none

/-- Whether the promise at an index rejected. -/
def isRejected (results : List (Except String α)) (i : Nat) : Bool :=
  match results[i]? with
  | some (Except.error _) => true
  | _ => false

/-- The first rejection observed by Promise.all: the error of the earliest
promise, in completion order, that rejected. -/
def firstRejection (results : List (Except String α)) (order : List Nat) : Option String :=
  order.findSome? (rejectionAt results)

/-- The index of the earliest rejected promise in completion order. -/
def firstRejectionIdx (results : List (Except String α)) (order : List Nat) : Option Nat :=
  order.find? (isRejected results)

/-- The value of a resolved promise, none for a rejected one. -/
def okValue? : Except String α → Option α
  | Except.ok v => some v
  | Except.error _ => none

/-- Promise.all over the per-section results: reject with the earliest
rejection in completion order, otherwise resolve with the values in
original array order. -/
def promiseAll (results : List (Except String α)) (order : List Nat) :
    Except String (List α) :=
  match firstRejection results order with
  | some e => Except.error e
  | none => Except.ok (results.filterMap okValue?)

/-- The per-section results, indexed exactly like the input sections. -/
def sectionResults (book : Book) (translate : Nat → BookSection → TranslateResult) :
    List (Except String SectionSummary) :=
  mapWithIndex (runSection translate) 0 book.sections

/-- BookSummarizer.summarizeSections. `limitK` is the p-limit concurrency
cap: it only bounds how many tasks are in flight, never the value a task
computes, so it does not occur in the value-level semantics. `order` is
the completion order of the per-section promises. -/
def summarizeSections (book : Book) (limitK : Nat) (order : List Nat)
    (translate : Nat → BookSection → TranslateResult) : Except String BookSummary :=
  let _ := limitK
  match promiseAll (sectionResults book translate) order with
  | Except.error e => Except.error ("Summarization failed: " ++ e)
  | Except.ok sections => Except.ok { sections := sections }

/-- Substring test used to state what an error message identifies. -/
def strContainsSub (s pat : String) : Bool :=
  s.toList.tails.any (fun t => pat.toList.isPrefixOf t)

/-! ## Helper lemmas -/

theorem ModerationCategories.get_orWith (a b : ModerationCategories) (c : ModCategory) :
    (a.orWith b).get c = (a.get c || b.get c) := by
  cases c <;> rfl

theorem ModerationCategories.get_allFalse (c : ModCategory) :
    ModerationCategories.allFalse.get c = false := by
  cases c <;> rfl

/-- Per-section flag read by the aggregation loop. -/
def sectionFlag (s : SectionSummary) : Bool :=
  match s.moderation with
  | some m => m.flagged
  | none => false

/-- Per-section category read by the aggregation loop. -/
def sectionCat (c : ModCategory) (s : SectionSummary) : Bool :=
  match s.moderation with
  | some m => m.categories.get c
  | none => false

theorem aggStep_foldl_flagged (sections : List SectionSummary) (acc : AggregatedModeration) :
    (sections.foldl aggStep acc).flagged = (acc.flagged || sections.any sectionFlag) := by
  induction sections generalizing acc with
  | nil => simp
  | cons s rest ih =>
    cases h : s.moderation with
    | none =>
      simp [List.foldl_cons, List.any_cons, ih, aggStep, h, sectionFlag]
    | some m =>
      simp [List.foldl_cons, List.any_cons, ih, aggStep, h, sectionFlag, Bool.or_assoc]

theorem aggStep_foldl_get (sections : List SectionSummary) (acc : AggregatedModeration)
    (c : ModCategory) :
    (sections.foldl aggStep acc).moderationCategories.get c
      = (acc.moderationCategories.get c || sections.any (sectionCat c)) := by
  induction sections generalizing acc with
  | nil => simp
  | cons s rest ih =>
    cases h : s.moderation with
    | none =>
      simp [List.foldl_cons, List.any_cons, ih, aggStep, h, sectionCat]
    | some m =>
      simp [List.foldl_cons, List.any_cons, ih, aggStep, h, sectionCat,
        ModerationCategories.get_orWith, Bool.or_assoc]

/-! ## C3: the moderation aggregator -/

/-- C3: for every BookSummary the aggregator computes `flagged` as the OR
of `moderation.flagged` over exactly the sections that have a moderation
result, and each of the 13 categories as the OR of that category over the
same sections; sections without a moderation result contribute nothing,
and with no moderated section at all the aggregate is all false. The
definition is a pure fold over the sections, with no external call. -/
theorem computeAggregatedModeration_correct (b : BookSummary) :
    ((computeAggregatedModeration b).flagged = b.sections.any sectionFlag)
    ∧ (∀ c : ModCategory,
        (computeAggregatedModeration b).moderationCategories.get c
          = b.sections.any (sectionCat c))
    ∧ ((∀ s ∈ b.sections, s.moderation = none) →
        (computeAggregatedModeration b).flagged = false
        ∧ ∀ c : ModCategory,
            (computeAggregatedModeration b).moderationCategories.get c = false) := by
  refine ⟨?_, ?_, ?_⟩
  · rw [computeAggregatedModeration, aggStep_foldl_flagged]
    simp
  · intro c
    rw [computeAggregatedModeration, aggStep_foldl_get]
    simp [ModerationCategories.get_allFalse]
  · intro h
    constructor
    · rw [computeAggregatedModeration, aggStep_foldl_flagged]
      simp only [Bool.false_or]
      rw [List.any_eq_false]
      intro s hs
      simp [sectionFlag, h s hs]
    · intro c
      rw [computeAggregatedModeration, aggStep_foldl_get]
      simp only [ModerationCategories.get_allFalse, Bool.false_or]
      rw [List.any_eq_false]
      intro s hs
      simp [sectionCat, h s hs]

/-- A section summary with no moderation result, used by witnesses. -/
def plainSection (t : String) : SectionSummary :=
  { title := t
    summary := "s"
    writingStyle := "w"
    tonality := "n"
    keyEvents := []
    qualityIssues := []
    moderation := none }

/-- All-zero moderation scores, used by witnesses. -/
def zeroScores : ModerationCategoryScores :=
  ⟨0, 0, 0, 0, 0, 0, 0, 0, 0, 0, 0, 0, 0⟩

/-- A moderated section whose only positive category is hate, used by
witnesses. -/
def hateSection : SectionSummary :=
  { plainSection "h" with
    moderation := some
      { flagged := true
        categories := { ModerationCategories.allFalse with hate := true }
        categoryScores := zeroScores } }

/-- Witness for C3 at concrete inputs: a two-section book where only the
first section is moderated (with hate set) aggregates to hate true, and a
book whose single section has no moderation result aggregates to all
false. -/
theorem computeAggregatedModeration_correct_witness :
    ((computeAggregatedModeration ⟨[hateSection, plainSection "p"]⟩).flagged = true
      ∧ (computeAggregatedModeration ⟨[hateSection, plainSection "p"]⟩).moderationCategories.get
          ModCategory.hate = true)
    ∧ ((computeAggregatedModeration ⟨[plainSection "p"]⟩).flagged = false
      ∧ (computeAggregatedModeration ⟨[plainSection "p"]⟩).moderationCategories.get
          ModCategory.hate = false) := by
  have h1 := computeAggregatedModeration_correct ⟨[hateSection, plainSection "p"]⟩
  have h2 := computeAggregatedModeration_correct ⟨[plainSection "p"]⟩
  have hnone : ∀ s ∈ (⟨[plainSection "p"]⟩ : BookSummary).sections, s.moderation = none := by
    intro s hs
    simp only [List.mem_singleton] at hs
    simp [hs, plainSection]
  refine ⟨⟨?_, ?_⟩, (h2.2.2 hnone).1, (h2.2.2 hnone).2 ModCategory.hate⟩
  · rw [h1.1]; rfl
  · rw [h1.2.1 ModCategory.hate]; rfl

/-! ## Pipeline helper lemmas -/

theorem mapWithIndex_length (f : Nat → α → β) (n : Nat) (l : List α) :
    (mapWithIndex f n l).length = l.length := by
  induction l generalizing n with
  | nil => rfl
  | cons a as ih => simp [mapWithIndex, ih]

theorem mapWithIndex_getElem? (f : Nat → α → β) (n i : Nat) (l : List α) :
    (mapWithIndex f n l)[i]? = l[i]?.map (f (n + i)) := by
  induction l generalizing n i with
  | nil => simp [mapWithIndex]
  | cons a as ih =>
    cases i with
    | zero => simp [mapWithIndex]
    | succ j =>
      have harith : n + 1 + j = n + (j + 1) := by omega
      rw [mapWithIndex]
      simp only [List.getElem?_cons_succ]
      rw [ih (n + 1) j, harith]

theorem sectionResults_length (book : Book) (translate : Nat → BookSection → TranslateResult) :
    (sectionResults book translate).length = book.sections.length :=
  mapWithIndex_length _ _ _

theorem sectionResults_getElem? (book : Book) (translate : Nat → BookSection → TranslateResult)
    (i : Nat) :
    (sectionResults book translate)[i]? = book.sections[i]?.map (runSection translate i) := by
  simpa using mapWithIndex_getElem? (runSection translate) 0 i book.sections

theorem filterMap_okValue_all_ok (results : List (Except String α))
    (h : ∀ r ∈ results, ∃ v, r = Except.ok v) :
    (results.filterMap okValue?).length = results.length
    ∧ ∀ i : Nat, (results.filterMap okValue?)[i]? = results[i]?.bind okValue? := by
  induction results with
  | nil => simp
  | cons r rest ih =>
    obtain ⟨v, rfl⟩ := h r (List.mem_cons_self _ _)
    have ih' := ih (fun r' hr' => h r' (List.mem_cons_of_mem _ hr'))
    refine ⟨by simp [okValue?, ih'.1], ?_⟩
    intro i
    cases i with
    | zero => simp [okValue?]
    | succ j => simpa [okValue?] using ih'.2 j

theorem rejectionAt_eq_none_of_ok (results : List (Except String α)) (i : Nat)
    (h : ∀ e, results[i]? ≠ some (Except.error e)) :
    rejectionAt results i = none := by
  unfold rejectionAt
  cases hr : results[i]? with
  | none => rfl
  | some r =>
    cases r with
    | ok v => rfl
    | error e => exact absurd hr (h e)

theorem firstRejection_eq_none_iff (results : List (Except String α)) (order : List Nat) :
    firstRejection results order = none
      ↔ ∀ i ∈ order, ∀ e, results[i]? ≠ some (Except.error e) := by
  rw [firstRejection, List.findSome?_eq_none_iff]
  constructor
  · intro h i hi e he
    have := h i hi
    rw [rejectionAt, he] at this
    simp at this
  · intro h i hi
    exact rejectionAt_eq_none_of_ok results i (h i hi)

theorem firstRejection_of_idx (results : List (Except String α)) (order : List Nat) (i : Nat)
    (h : firstRejectionIdx results order = some i) :
    ∃ e, results[i]? = some (Except.error e) ∧ firstRejection results order = some e := by
  induction order with
  | nil => simp [firstRejectionIdx] at h
  | cons j rest ih =>
    rw [firstRejectionIdx, List.find?_cons] at h
    rw [firstRejection, List.findSome?_cons]
    cases hj : isRejected results j with
    | false =>
      simp only [hj] at h
      have hnone : rejectionAt results j = none := by
        rw [isRejected] at hj
        rw [rejectionAt]
        cases hr : results[j]? with
        | none => rfl
        | some r =>
          cases r with
          | ok v => rfl
          | error e => rw [hr] at hj; simp at hj
      simp only [hnone]
      exact ih h
    | true =>
      simp only [hj] at h
      obtain rfl : j = i := by simpa using h
      rw [isRejected] at hj
      cases hr : results[j]? with
      | none => rw [hr] at hj; simp at hj
      | some r =>
        cases r with
        | ok v => rw [hr] at hj; simp at hj
        | error e =>
          refine ⟨e, rfl, ?_⟩
          have hsome : rejectionAt results j = some e := by rw [rejectionAt, hr]
          simp only [hsome]

/-! ## C1: pipeline ordering and title preservation -/

theorem all_ok_of_no_rejection (results : List (Except String α)) (order : List Nat)
    (hperm : order.Perm (List.range results.length))
    (hnone : firstRejection results order = none) :
    ∀ r ∈ results, ∃ v, r = Except.ok v := by
  intro r hr
  obtain ⟨i, hi⟩ := List.mem_iff_getElem?.mp hr
  have hlen : i < results.length := by
    rcases List.getElem?_eq_some.mp hi with ⟨hl, _⟩
    exact hl
  have hmem : i ∈ order := hperm.mem_iff.mpr (List.mem_range.mpr hlen)
  have hne := (firstRejection_eq_none_iff results order).mp hnone i hmem
  cases r with
  | ok v => exact ⟨v, rfl⟩
  | error e => exact absurd hi (hne e)

/-- C1: for every book, concurrency limit and completion order (any
permutation of the section indices), a successful summarizeSections run
returns exactly one SectionSummary per input section, in input order, with
each title overwritten by the source section's title regardless of what
the generation service returned; and the same BookSummary is returned
under any other limit and completion order. -/
theorem summarizeSections_ordered_titles (book : Book) (limitK limitK' : Nat)
    (order order' : List Nat) (translate : Nat → BookSection → TranslateResult)
    (bs : BookSummary)
    (hperm : order.Perm (List.range book.sections.length))
    (hperm' : order'.Perm (List.range book.sections.length))
    (h : summarizeSections book limitK order translate = Except.ok bs) :
    bs.sections.length = book.sections.length
    ∧ (∀ i (hi : i < bs.sections.length) (hib : i < book.sections.length),
        bs.sections[i].title = book.sections[i].title)
    ∧ summarizeSections book limitK' order' translate = Except.ok bs := by
  rw [summarizeSections] at h
  cases hpa : promiseAll (sectionResults book translate) order with
  | error e => rw [hpa] at h; exact absurd h (by simp)
  | ok secs =>
    rw [hpa] at h
    simp only [Except.ok.injEq] at h
    obtain rfl : bs = { sections := secs } := h.symm
    rw [promiseAll] at hpa
    cases hfr : firstRejection (sectionResults book translate) order with
    | some e => rw [hfr] at hpa; exact absurd hpa (by simp)
    | none =>
      rw [hfr] at hpa
      simp only [Except.ok.injEq] at hpa
      subst hpa
      have hresl : (sectionResults book translate).length = book.sections.length :=
        sectionResults_length book translate
      have hall : ∀ r ∈ sectionResults book translate, ∃ v, r = Except.ok v :=
        all_ok_of_no_rejection _ order (by rw [hresl]; exact hperm) hfr
      obtain ⟨hflen, hfget⟩ := filterMap_okValue_all_ok _ hall
      refine ⟨by simpa [hresl] using hflen, ?_, ?_⟩
      · intro i hi hib
        have hri : (sectionResults book translate)[i]?
            = some (runSection translate i book.sections[i]) := by
          rw [sectionResults_getElem?, List.getElem?_eq_getElem hib]
          rfl
        have hmem : runSection translate i book.sections[i] ∈ sectionResults book translate :=
          List.mem_iff_getElem?.mpr ⟨i, hri⟩
        obtain ⟨v, hv⟩ := hall _ hmem
        have hgi : (List.filterMap okValue? (sectionResults book translate))[i]? = some v := by
          rw [hfget i, hri, hv]
          rfl
        have hgi' := List.getElem?_eq_getElem hi
        rw [hgi] at hgi'
        cases ht : translate i book.sections[i] with
        | success data =>
          rw [runSection, ht] at hv
          have hv' : v = { data with title := book.sections[i].title } := by
            injection hv with hv'
            exact hv'.symm
          have : ({ sections := List.filterMap okValue? (sectionResults book translate) }
              : BookSummary).sections[i] = v := by
            injection hgi' with h'
            exact h'.symm
          rw [this, hv']
        | failure msg => rw [runSection, ht] at hv; exact absurd hv (by simp)
        | thrown msg => rw [runSection, ht] at hv; exact absurd hv (by simp)
      · have hnone' : firstRejection (sectionResults book translate) order' = none := by
          rw [firstRejection_eq_none_iff]
          intro i hi e he
          have hmem : Except.error e ∈ sectionResults book translate :=
            List.mem_iff_getElem?.mpr ⟨i, he⟩
          obtain ⟨v, hv⟩ := hall _ hmem
          exact absurd hv (by simp)
        rw [summarizeSections, promiseAll, hnone']

/-- A translation oracle that always succeeds with a generated (wrong)
title, used by witnesses. -/
def demoTranslate (i : Nat) (_ : BookSection) : TranslateResult :=
  TranslateResult.success (plainSection ("gen" ++ toString i))

/-- A two-section book used by witnesses. -/
def demoBook : Book := ⟨[⟨"One", "c1"⟩, ⟨"Two", "c2"⟩]⟩

/-- The book summary the pipeline produces for demoBook and demoTranslate. -/
def demoBS : BookSummary :=
  ⟨[{ plainSection "gen0" with title := "One" },
    { plainSection "gen1" with title := "Two" }]⟩

/-- Witness for C1 at a concrete input: a two-section book summarized
under completion order [1, 0] and limit 75 yields the same two-entry
summary, titles taken from the input, as under completion order [0, 1]
and limit 1. -/
theorem summarizeSections_ordered_titles_witness :
    summarizeSections demoBook 75 [1, 0] demoTranslate = Except.ok demoBS
    ∧ demoBS.sections.length = demoBook.sections.length
    ∧ (demoBS.sections.get ⟨0, by decide⟩).title = (demoBook.sections.get ⟨0, by decide⟩).title
    ∧ summarizeSections demoBook 1 [0, 1] demoTranslate = Except.ok demoBS := by
  have h := summarizeSections_ordered_titles demoBook 75 1 [1, 0] [0, 1] demoTranslate demoBS
    (by decide) (by decide) (by rfl)
  refine ⟨by rfl, h.1, ?_, h.2.2⟩
  have := h.2.1 0 (by decide) (by decide)
  simpa [List.get_eq_getElem] using this

/-! ## C2: fail-fast error surfacing -/

theorem summarizeSections_error_of_firstRejection (book : Book) (limitK : Nat)
    (order : List Nat) (translate : Nat → BookSection → TranslateResult) (e : String)
    (hfr : firstRejection (sectionResults book translate) order = some e) :
    summarizeSections book limitK order translate
      = Except.error ("Summarization failed: " ++ e) := by
  rw [summarizeSections, promiseAll, hfr]

/-- C2 (amended): if the earliest-completing failed section is index i,
the whole pipeline fails and no BookSummary is returned; when section i
failed with an explicit failure result the surfaced error names the
section index and the failure message (not the title), and when its task
threw, the thrown message is propagated unchanged. -/
theorem summarizeSections_failfast (book : Book) (limitK : Nat) (order : List Nat)
    (translate : Nat → BookSection → TranslateResult) (i : Nat) (msg : String)
    (hib : i < book.sections.length)
    (hfirst : firstRejectionIdx (sectionResults book translate) order = some i) :
    (∃ e, summarizeSections book limitK order translate = Except.error e)
    ∧ (translate i book.sections[i] = TranslateResult.failure msg →
        summarizeSections book limitK order translate
          = Except.error ("Summarization failed: Failed to summarize section "
              ++ toString i ++ ": " ++ msg))
    ∧ (translate i book.sections[i] = TranslateResult.thrown msg →
        summarizeSections book limitK order translate
          = Except.error ("Summarization failed: " ++ msg)) := by
  obtain ⟨e, hre, hfr⟩ := firstRejection_of_idx _ order i hfirst
  have hri : (sectionResults book translate)[i]?
      = some (runSection translate i book.sections[i]) := by
    rw [sectionResults_getElem?, List.getElem?_eq_getElem hib]
    rfl
  rw [hri] at hre
  have hrun : runSection translate i book.sections[i] = Except.error e :=
    Option.some.inj hre
  refine ⟨⟨"Summarization failed: " ++ e,
    summarizeSections_error_of_firstRejection book limitK order translate e hfr⟩, ?_, ?_⟩
  · intro ht
    rw [runSection, ht] at hrun
    have he : e = "Failed to summarize section " ++ toString i ++ ": " ++ msg :=
      (Except.error.inj hrun).symm
    subst he
    exact summarizeSections_error_of_firstRejection book limitK order translate _ hfr
  · intro ht
    rw [runSection, ht] at hrun
    have he : e = msg := (Except.error.inj hrun).symm
    subst he
    exact summarizeSections_error_of_firstRejection book limitK order translate _ hfr

/-- A one-section book whose title is Alpha, used by the C2
counterexample. -/
def cexBook : Book := ⟨[⟨"Alpha", "content"⟩]⟩

/-- A translation oracle that reports an explicit failure, used by the C2
counterexample. -/
def cexTranslate (_ : Nat) (_ : BookSection) : TranslateResult :=
  TranslateResult.failure "boom"

/-- Counterexample to C2 as stated: for a book whose single section is
titled Alpha, a failing generation call aborts the pipeline with the exact
error message below, which contains the failing section's index but not
its title, so the surfaced error does not identify the failing section's
title. -/
theorem summarizeSections_error_lacks_title :
    summarizeSections cexBook 75 [0] cexTranslate
      = Except.error "Summarization failed: Failed to summarize section 0: boom"
    ∧ cexBook.sections.map BookSection.title = ["Alpha"]
    ∧ strContainsSub "Summarization failed: Failed to summarize section 0: boom" "Alpha"
        = false := by
  refine ⟨by rfl, by rfl, by rfl⟩

/-- Witness for the amended C2 at concrete inputs: the explicit-failure
case surfaces the index-bearing message, and a thrown task propagates its
own message. -/
theorem summarizeSections_failfast_witness :
    summarizeSections cexBook 75 [0] cexTranslate
      = Except.error "Summarization failed: Failed to summarize section 0: boom"
    ∧ summarizeSections cexBook 75 [0] (fun _ _ => TranslateResult.thrown "net down")
        = Except.error "Summarization failed: net down" := by
  have h1 := summarizeSections_failfast cexBook 75 [0] cexTranslate 0 "boom"
    (by decide) (by rfl)
  have h2 := summarizeSections_failfast cexBook 75 [0]
    (fun _ _ => TranslateResult.thrown "net down") 0 "net down" (by decide) (by rfl)
  exact ⟨h1.2.1 (by rfl), h2.2.2 (by rfl)⟩

/-! ## Helper lemmas for the refinement engine -/

theorem getF_setF (d : ComprehensiveSummary) (f g : SField) (v : Json) :
    getF (setF d f v) g = if g = f then v else getF d g := by
  cases f <;> cases g <;> simp [getF, setF]

theorem findIdx?_none_of_all (p : α → Bool) (l : List α) (s : Nat)
    (h : ∀ e ∈ l, p e = false) : l.findIdx? p s = none := by
  induction l generalizing s with
  | nil => exact List.findIdx?_nil
  | cons a as ih =>
    rw [List.findIdx?_cons, h a (List.mem_cons_self _ _)]
    simp only [Bool.false_eq_true, if_false]
    exact ih (s + 1) (fun e he => h e (List.mem_cons_of_mem _ he))

theorem findIdx?_first_match (p : α → Bool) (l : List α) (j s : Nat)
    (hj : j < l.length) (hpj : p l[j] = true)
    (hfirst : ∀ i (hi : i < l.length), i < j → p l[i] = false) :
    l.findIdx? p s = some (s + j) := by
  induction l generalizing j s with
  | nil => exact absurd hj (Nat.not_lt_zero j)
  | cons a as ih =>
    rw [List.findIdx?_cons]
    cases j with
    | zero =>
      simp only [List.getElem_cons_zero] at hpj
      rw [hpj]
      simp
    | succ k =>
      have ha : p a = false := by
        have := hfirst 0 (Nat.succ_pos _) (Nat.succ_pos k)
        simpa using this
      rw [ha]
      simp only [Bool.false_eq_true, if_false]
      have hk : k < as.length := Nat.lt_of_succ_lt_succ hj
      have hpk : p as[k] = true := by
        simpa using hpj
      have hfirst' : ∀ i (hi : i < as.length), i < k → p as[i] = false := by
        intro i hi hik
        have := hfirst (i + 1) (Nat.succ_lt_succ hi) (Nat.succ_lt_succ hik)
        simpa using this
      have := ih k (s + 1) hk hpk hfirst'
      rw [this]
      congr 1
      omega

/-! ## C4: revertToTimestamp with unique timestamps -/

/-- C4: on a log with pairwise-distinct timestamps, revertToTimestamp
fails when no entry carries the requested timestamp, and for the k-th
entry's timestamp it truncates the log to the first k+1 entries and sets
the current document to the replay of those entries, in log order, over
the initial document. -/
theorem revertToTimestamp_replay (st : SummaryChatState) (k : Nat)
    (hk : k < st.chatHistory.length)
    (hnodup : (st.chatHistory.map ChatHistoryEntry.timestamp).Nodup) :
    (∀ ts, (∀ e ∈ st.chatHistory, e.timestamp ≠ ts) →
        revertToTimestamp st ts = Except.error "Timestamp not found in history")
    ∧ revertToTimestamp st (st.chatHistory[k].timestamp)
        = Except.ok
            ({ st with
                chatHistory := st.chatHistory.take (k + 1),
                summary := applyEntries st.initialSummary (st.chatHistory.take (k + 1)) },
             applyEntries st.initialSummary (st.chatHistory.take (k + 1))) := by
  constructor
  · intro ts h
    have hnone : st.chatHistory.findIdx? (fun e => e.timestamp = ts) = none := by
      apply findIdx?_none_of_all
      intro e he
      simp [h e he]
    rw [revertToTimestamp, hnone]
  · have hfind : st.chatHistory.findIdx? (fun e => e.timestamp = st.chatHistory[k].timestamp)
        = some k := by
      have := findIdx?_first_match (fun e => e.timestamp = st.chatHistory[k].timestamp)
        st.chatHistory k 0 hk (by simp) ?_
      · simpa using this
      · intro i hi hik
        have hne : i ≠ k := Nat.ne_of_lt hik
        have : st.chatHistory[i].timestamp ≠ st.chatHistory[k].timestamp := by
          intro heq
          apply hne
          have hi' : i < (st.chatHistory.map ChatHistoryEntry.timestamp).length := by
            simpa using hi
          have hk' : k < (st.chatHistory.map ChatHistoryEntry.timestamp).length := by
            simpa using hk
          have hmap : (st.chatHistory.map ChatHistoryEntry.timestamp)[i]
              = (st.chatHistory.map ChatHistoryEntry.timestamp)[k] := by
            rw [List.getElem_map, List.getElem_map]
            exact heq
          exact (hnodup.getElem_inj_iff).mp hmap
        simp [this]
    rw [revertToTimestamp, hfind]

/-! ## C10: revertToTimestamp with duplicated timestamps -/

/-- C10: when the log holds two or more entries with the same timestamp,
revertToTimestamp truncates at the first matching entry: the log keeps
exactly the entries up to and including the first occurrence and the
document is rebuilt by replaying only those, discarding every later entry
including the other duplicates. -/
theorem revertToTimestamp_dup_first (st : SummaryChatState) (ts : String) (j : Nat)
    (hj : j < st.chatHistory.length)
    (hmatch : st.chatHistory[j].timestamp = ts)
    (hfirst : ∀ i (hi : i < st.chatHistory.length), i < j → st.chatHistory[i].timestamp ≠ ts)
    (hdup : 2 ≤ (st.chatHistory.filter (fun e => e.timestamp = ts)).length) :
    revertToTimestamp st ts
      = Except.ok
          ({ st with
              chatHistory := st.chatHistory.take (j + 1),
              summary := applyEntries st.initialSummary (st.chatHistory.take (j + 1)) },
           applyEntries st.initialSummary (st.chatHistory.take (j + 1))) := by
  have hfind : st.chatHistory.findIdx? (fun e => e.timestamp = ts) = some j := by
    have := findIdx?_first_match (fun e => e.timestamp = ts) st.chatHistory j 0 hj
      (by simp [hmatch]) (fun i hi hij => by simp [hfirst i hi hij])
    simpa using this
  rw [revertToTimestamp, hfind]

/-! ## C5: revertLastChange -/

/-- C5: revertLastChange fails on an empty log; otherwise it writes the
last entry's previousContent back into that entry's field, leaves every
other field unchanged, shrinks the log by exactly one entry (dropping the
last), and performs no replay: its outcome does not read the initial
document at all. -/
theorem revertLastChange_correct (st : SummaryChatState) :
    (st.chatHistory = [] → revertLastChange st = Except.error "No changes to revert")
    ∧ (∀ e, st.chatHistory.getLast? = some e →
        revertLastChange st
          = Except.ok ({ st with
              summary := setF st.summary e.sectionKey e.previousContent,
              chatHistory := st.chatHistory.dropLast },
            setF st.summary e.sectionKey e.previousContent)
        ∧ (∀ f : SField, getF (setF st.summary e.sectionKey e.previousContent) f
            = if f = e.sectionKey then e.previousContent else getF st.summary f)
        ∧ st.chatHistory.dropLast.length + 1 = st.chatHistory.length)
    ∧ (∀ init', revertLastChange { st with initialSummary := init' }
        = Except.map (fun p => ({ p.1 with initialSummary := init' }, p.2))
            (revertLastChange st)) := by
  refine ⟨?_, ?_, ?_⟩
  · intro h
    rw [revertLastChange, h]
    rfl
  · intro e he
    refine ⟨by rw [revertLastChange, he], fun f => getF_setF st.summary e.sectionKey f _, ?_⟩
    have hne : st.chatHistory ≠ [] := by
      intro h
      rw [h] at he
      exact absurd he (by simp)
    have hpos : 0 < st.chatHistory.length := List.length_pos.mpr hne
    rw [List.length_dropLast]
    omega
  · intro init'
    cases he : st.chatHistory.getLast? with
    | none =>
      have : ({ st with initialSummary := init' } : SummaryChatState).chatHistory.getLast?
          = none := he
      rw [revertLastChange, this, revertLastChange, he]
      rfl
    | some e =>
      have : ({ st with initialSummary := init' } : SummaryChatState).chatHistory.getLast?
          = some e := he
      rw [revertLastChange, this, revertLastChange, he]
      rfl

/-- A concrete composite document used by witnesses. -/
def demoDoc : ComprehensiveSummary :=
  { summary := Json.jstr "s0"
    writingStyle := Json.jstr "w0"
    quality := Json.jnull
    keywords := Json.jarr [Json.jstr "k"]
    genres := Json.jarr []
    marketingCopy := Json.jstr "m"
    comparableAuthors := Json.jarr []
    flagged := Json.jbool false
    moderationCategories := Json.jobj [] }

/-- First demo log entry: rewrites the summary field at time t1. -/
def entryA : ChatHistoryEntry :=
  { timestamp := "t1"
    sectionKey := SField.summary
    instruction := "i1"
    previousContent := Json.jstr "s0"
    updatedContent := Json.jstr "s1" }

/-- Second demo log entry: rewrites the summary field again at time t2. -/
def entryB : ChatHistoryEntry :=
  { timestamp := "t2"
    sectionKey := SField.summary
    instruction := "i2"
    previousContent := Json.jstr "s1"
    updatedContent := Json.jstr "s2" }

/-- A demo engine state after the two demo edits. -/
def demoState : SummaryChatState :=
  { summary := applyEntries demoDoc [entryA, entryB]
    chatHistory := [entryA, entryB]
    initialSummary := demoDoc }

/-- Witness for C4 at a concrete state: reverting to t1 keeps exactly the
first entry and replays it over the initial document (both entries edited
the same field), and reverting to an absent timestamp fails. -/
theorem revertToTimestamp_replay_witness :
    revertToTimestamp demoState "t1"
      = Except.ok
          ({ demoState with
              chatHistory := [entryA],
              summary := applyEntries demoDoc [entryA] },
           applyEntries demoDoc [entryA])
    ∧ revertToTimestamp demoState "tx" = Except.error "Timestamp not found in history" := by
  have h := revertToTimestamp_replay demoState 0 (by decide) (by decide)
  exact ⟨h.2, h.1 "tx" (by decide)⟩

/-- The second demo entry with its timestamp changed to collide with the
first. -/
def entryBdup : ChatHistoryEntry := { entryB with timestamp := "t1" }

/-- A demo state whose log carries two entries with the same timestamp. -/
def dupState : SummaryChatState :=
  { summary := applyEntries demoDoc [entryA, entryBdup]
    chatHistory := [entryA, entryBdup]
    initialSummary := demoDoc }

/-- Witness for C10 at a concrete state: with two entries both stamped t1,
reverting to t1 truncates at the first one and discards the duplicate. -/
theorem revertToTimestamp_dup_first_witness :
    2 ≤ (dupState.chatHistory.filter (fun e => e.timestamp = "t1")).length
    ∧ revertToTimestamp dupState "t1"
        = Except.ok
            ({ dupState with
                chatHistory := [entryA],
                summary := applyEntries demoDoc [entryA] },
             applyEntries demoDoc [entryA]) := by
  refine ⟨by decide, ?_⟩
  have h := revertToTimestamp_dup_first dupState "t1" 0 (by decide) (by decide)
    (fun i hi hij => absurd hij (Nat.not_lt_zero i)) (by decide)
  exact h

/-- Witness for C5 at a concrete state: reverting the last change restores
the previous summary content, drops the last log entry, and commutes with
replacing the initial document (no replay); the empty log fails. -/
theorem revertLastChange_correct_witness :
    revertLastChange demoState
      = Except.ok
          ({ demoState with
              summary := setF demoState.summary SField.summary (Json.jstr "s1"),
              chatHistory := [entryA] },
           setF demoState.summary SField.summary (Json.jstr "s1"))
    ∧ revertLastChange { demoState with chatHistory := [] }
        = Except.error "No changes to revert"
    ∧ revertLastChange { demoState with initialSummary := demoDoc }
        = Except.map (fun p => ({ p.1 with initialSummary := demoDoc }, p.2))
            (revertLastChange demoState) := by
  have h := revertLastChange_correct demoState
  have hempty := revertLastChange_correct { demoState with chatHistory := [] }
  refine ⟨?_, hempty.1 (by rfl), h.2.2 demoDoc⟩
  have hlast : demoState.chatHistory.getLast? = some entryB := by rfl
  exact (h.2.1 entryB hlast).1

/-! ## C9: export/import round trip -/

/-- C9: for every engine state and export timestamp, importing the freshly
exported history succeeds (the version tag always matches and the three
required fields are always present) and restores exactly the same state:
current document, initial document and log are unchanged. -/
theorem importHistory_exportHistory_id (st : SummaryChatState) (now : String) :
    importHistory st (exportHistory st now) = Except.ok st := by
  rw [importHistory, exportHistory]
  simp [HISTORY_VERSION]

/-! ## C8: refineSection is all-or-nothing -/

/-- C8: whenever the generation call throws, returns a non-text block, or
returns text whose prepared form fails to parse, refineSection surfaces an
error, and on every error outcome the engine state — current document,
initial document and log — is exactly the state before the call. -/
theorem refineSection_atomic (st : SummaryChatState) (req : ChatRequest)
    (gen : GenOutcome) (now : String) :
    (∀ e, (refineSection st req gen now).2 = Except.error e →
        (refineSection st req gen now).1 = st)
    ∧ (∀ msg, gen = GenOutcome.thrown msg →
        ∃ e, (refineSection st req gen now).2 = Except.error e)
    ∧ (gen = GenOutcome.nonText →
        ∃ e, (refineSection st req gen now).2 = Except.error e)
    ∧ (∀ raw, gen = GenOutcome.text raw →
        jsonParseStr (prepareResponseForParsing raw req.sectionKey.fieldName) = none →
        ∃ e, (refineSection st req gen now).2 = Except.error e) := by
  cases gen with
  | thrown msg =>
    exact ⟨fun e _ => rfl, fun m _ => ⟨_, rfl⟩,
      fun h => GenOutcome.noConfusion h,
      fun raw h => GenOutcome.noConfusion h⟩
  | nonText =>
    exact ⟨fun e _ => rfl, fun m h => GenOutcome.noConfusion h,
      fun _ => ⟨_, rfl⟩,
      fun raw h => GenOutcome.noConfusion h⟩
  | text raw0 =>
    refine ⟨?_, fun m h => GenOutcome.noConfusion h,
      fun h => GenOutcome.noConfusion h, ?_⟩
    · intro e he
      cases hp : jsonParseStr (prepareResponseForParsing raw0 req.sectionKey.fieldName) with
      | none =>
        simp only [refineSection, hp]
      | some parsed =>
        rw [refineSection] at he
        simp only [hp] at he
        exact absurd he (by simp)
    · intro raw h hnone
      obtain rfl : raw = raw0 := by injection h with h'; exact h'.symm
      refine ⟨"Failed to refine summary: Failed to parse response: SyntaxError", ?_⟩
      simp only [refineSection, hnone]

/-- Witness for C8 at a concrete state: a thrown generation call and an
unparseable text response both surface errors and leave the state intact. -/
theorem refineSection_atomic_witness :
    (refineSection demoState ⟨SField.summary, "i"⟩ (GenOutcome.thrown "x") "t9").1 = demoState
    ∧ (refineSection demoState ⟨SField.summary, "i"⟩ (GenOutcome.thrown "x") "t9").2
        = Except.error "Failed to refine summary: x"
    ∧ (refineSection demoState ⟨SField.summary, "i"⟩
        (GenOutcome.text "\x7boops") "t9").1 = demoState
    ∧ (refineSection demoState ⟨SField.summary, "i"⟩ (GenOutcome.text "\x7boops") "t9").2
        = Except.error "Failed to refine summary: Failed to parse response: SyntaxError" := by
  have h1 := refineSection_atomic demoState ⟨SField.summary, "i"⟩ (GenOutcome.thrown "x") "t9"
  have h2 := refineSection_atomic demoState ⟨SField.summary, "i"⟩
    (GenOutcome.text "\x7boops") "t9"
  obtain ⟨e1, he1⟩ := h1.2.1 "x" rfl
  obtain ⟨e2, he2⟩ := h2.2.2.2 "\x7boops" rfl (by rfl)
  exact ⟨h1.1 e1 he1, by rfl, h2.1 e2 he2, by rfl⟩

/-! ## C6: the repair parser equations -/

/-- C6: an already-valid JSON string is passed through the preparation
step unchanged, so for the keywords field it parses to the same array,
which the structural repair also leaves unchanged; the raw text foo bar
prepared for the summary field parses to the object keyed by summary; and
the raw array text for keywords yields the array itself — the wrapping
object is never produced because direct parsing succeeds first. -/
theorem repairParser_equations :
    (∀ s xs, jsonParseStr s = some (Json.jarr xs) →
        jsonParseStr (prepareResponseForParsing s "keywords") = some (Json.jarr xs)
        ∧ repairResponse (Json.jarr xs) "keywords" = Json.jarr xs)
    ∧ jsonParseStr (prepareResponseForParsing "foo bar" "summary")
        = some (Json.jobj [("summary", Json.jstr "foo bar")])
    ∧ (jsonParseStr (prepareResponseForParsing "[\"a\",\"b\"]" "keywords")
        = some (Json.jarr [Json.jstr "a", Json.jstr "b"])
      ∧ repairResponse (Json.jarr [Json.jstr "a", Json.jstr "b"]) "keywords"
          = Json.jarr [Json.jstr "a", Json.jstr "b"]
      ∧ Json.jarr [Json.jstr "a", Json.jstr "b"]
          ≠ Json.jobj [("keywords", Json.jarr [Json.jstr "a", Json.jstr "b"])]) := by
  refine ⟨?_, by rfl, by rfl, by rfl, fun h => Json.noConfusion h⟩
  intro s xs h
  constructor
  · rw [prepareResponseForParsing, h]
    exact h
  · rfl

/-- Witness for C6's universally quantified first equation at a concrete
input: the valid JSON array text for keywords is passed through and
parses to the same array, unchanged by the structural repair. -/
theorem repairParser_equations_witness :
    jsonParseStr "[\"a\",\"b\"]" = some (Json.jarr [Json.jstr "a", Json.jstr "b"])
    ∧ jsonParseStr (prepareResponseForParsing "[\"a\",\"b\"]" "keywords")
        = some (Json.jarr [Json.jstr "a", Json.jstr "b"])
    ∧ repairResponse (Json.jarr [Json.jstr "a", Json.jstr "b"]) "keywords"
        = Json.jarr [Json.jstr "a", Json.jstr "b"] := by
  have h := repairParser_equations.1 "[\"a\",\"b\"]" [Json.jstr "a", Json.jstr "b"] (by rfl)
  exact ⟨by rfl, h.1, h.2⟩

/-! ## C7: the post-parse structural repair -/

/-- Counterexample to C7 as stated: the object with keys summary and x
exposes the target key summary, so the claim requires unwrapping to the
empty string; but the source tests JavaScript truthiness, the empty
string is falsy, and the object has two keys, so it is returned
unchanged. -/
theorem repairResponse_falsy_not_unwrapped :
    repairResponse (Json.jobj [("summary", Json.jstr ""), ("x", Json.jstr "y")]) "summary"
      = Json.jobj [("summary", Json.jstr ""), ("x", Json.jstr "y")]
    ∧ Json.jobj [("summary", Json.jstr ""), ("x", Json.jstr "y")] ≠ Json.jstr "" := by
  exact ⟨by rfl, fun h => Json.noConfusion h⟩

/-- C7 (amended): strings and arrays are returned unchanged; an object
whose target-field value is truthy is unwrapped one level, and a second
level when that value is itself an object whose target-field value is
again truthy (a falsy or absent nested value stops at one level); when
the target-field value is absent or falsy, an object with exactly one
distinct key yields that key's value, and every other object is returned
unchanged rather than failing. -/
theorem repairResponse_spec (fieldName : String) :
    (∀ s, repairResponse (Json.jstr s) fieldName = Json.jstr s)
    ∧ (∀ xs, repairResponse (Json.jarr xs) fieldName = Json.jarr xs)
    ∧ (∀ fields v, objGet fields fieldName = some v → v.truthy = true →
        (∀ f2 v2, v = Json.jobj f2 → objGet f2 fieldName = some v2 → v2.truthy = true →
            repairResponse (Json.jobj fields) fieldName = v2)
        ∧ (∀ f2 v2, v = Json.jobj f2 → objGet f2 fieldName = some v2 → v2.truthy = false →
            repairResponse (Json.jobj fields) fieldName = v)
        ∧ (∀ f2, v = Json.jobj f2 → objGet f2 fieldName = none →
            repairResponse (Json.jobj fields) fieldName = v)
        ∧ ((∀ f2, v ≠ Json.jobj f2) → repairResponse (Json.jobj fields) fieldName = v))
    ∧ (∀ fields, (∀ v, objGet fields fieldName = some v → v.truthy = false) →
        (∀ k, objKeys fields = [k] →
            repairResponse (Json.jobj fields) fieldName
              = (objGet fields k).getD (Json.jobj fields))
        ∧ ((∀ k, objKeys fields ≠ [k]) →
            repairResponse (Json.jobj fields) fieldName = Json.jobj fields)) := by
  refine ⟨fun s => rfl, fun xs => rfl, ?_, ?_⟩
  · intro fields v hget htruthy
    refine ⟨?_, ?_, ?_, ?_⟩
    · intro f2 v2 hv h2 h2t
      subst hv
      simp only [repairResponse, hget, htruthy, if_true, h2, h2t]
    · intro f2 v2 hv h2 h2f
      subst hv
      simp only [repairResponse, hget, htruthy, if_true, h2, h2f, Bool.false_eq_true,
        if_false]
    · intro f2 hv h2
      subst hv
      simp only [repairResponse, hget, htruthy, if_true, h2]
    · intro hnobj
      cases v with
      | jobj f2 => exact absurd rfl (hnobj f2)
      | jnull => simp [Json.truthy] at htruthy
      | jbool b => simp only [repairResponse, hget, htruthy, if_true]
      | jnum lex => simp only [repairResponse, hget, htruthy, if_true]
      | jstr s => simp only [repairResponse, hget, htruthy, if_true]
      | jarr xs => simp only [repairResponse, hget, htruthy, if_true]
  · intro fields hfal
    constructor
    · intro k hk
      cases hget : objGet fields fieldName with
      | none => simp only [repairResponse, hget, hk]
      | some v =>
        have hvf := hfal v hget
        simp only [repairResponse, hget, hvf, Bool.false_eq_true, if_false, hk]
    · intro hnk
      cases hget : objGet fields fieldName with
      | none =>
        cases hks : objKeys fields with
        | nil => simp only [repairResponse, hget, hks]
        | cons k rest =>
          cases rest with
          | nil => exact absurd hks (hnk k)
          | cons k2 rest2 => simp only [repairResponse, hget, hks]
      | some v =>
        have hvf := hfal v hget
        cases hks : objKeys fields with
        | nil =>
          simp only [repairResponse, hget, hvf, Bool.false_eq_true, if_false, hks]
        | cons k rest =>
          cases rest with
          | nil => exact absurd hks (hnk k)
          | cons k2 rest2 =>
            simp only [repairResponse, hget, hvf, Bool.false_eq_true, if_false, hks]

/-- Witness for the amended C7 at concrete inputs: a truthy target value
unwraps one level, a doubly nested truthy value unwraps two levels, and
for an object without the target key but with a single distinct key that
key's value is returned. -/
theorem repairResponse_spec_witness :
    repairResponse (Json.jobj [("summary", Json.jstr "hello")]) "summary" = Json.jstr "hello"
    ∧ repairResponse (Json.jobj [("summary", Json.jobj [("summary", Json.jstr "inner")])])
        "summary" = Json.jstr "inner"
    ∧ repairResponse (Json.jobj [("other", Json.jstr "z")]) "summary" = Json.jstr "z" := by
  have h := repairResponse_spec "summary"
  refine ⟨?_, ?_, ?_⟩
  · exact (h.2.2.1 [("summary", Json.jstr "hello")] (Json.jstr "hello")
      (by rfl) (by rfl)).2.2.2 (fun f2 hf => Json.noConfusion hf)
  · exact (h.2.2.1 [("summary", Json.jobj [("summary", Json.jstr "inner")])]
      (Json.jobj [("summary", Json.jstr "inner")]) (by rfl) (by rfl)).1
      [("summary", Json.jstr "inner")] (Json.jstr "inner") rfl (by rfl) (by rfl)
  · have h3 := (h.2.2.2 [("other", Json.jstr "z")]
      (fun v hv => Option.noConfusion hv)).1 "other" (by rfl)
    rw [h3]
    rfl
